import Mathlib

/-!
Verification development for the Sims4Rewind backup engine.

This file gives a shallow embedding, in Lean, of the core backup logic of
the repository (`backup_handler.py`, `utils.py`, `services.py`) and proves
or refutes the frozen behavioural claims about it.

Modelling conventions:
* SHA-256 is modelled as an ideal (injective) hash: a digest is the exact
  sequence of bytes that was fed to the hasher (`hashlib.sha256` objects
  become an accumulated byte list, `update` becomes append, `hexdigest`
  returns the accumulated list).  Collision resistance is thereby idealised;
  every statement about digest equality is a statement about the fed bytes.
* Bytes are natural numbers; files are records of name, modification time
  (a natural number) and stored data.  A zip archive produced by
  `zipfile.ZipFile(...).write(path, arcname)` is modelled as a constructor
  remembering the entry name and the payload bytes.
* Directory contents are lists of files; callback invocations
  (status / created / pruned / notifications) are modelled as an emitted
  event list.
* Python's `re` matching for the codec is compiled by hand to an executable
  function; the compilation argument is documented at the definition.
-/

/-- Digest of a byte stream under the idealised SHA-256 model: the exact
byte sequence fed to the hasher. -/
abbrev Digest := List Nat

/-- Data stored in a file: either raw bytes (a `.bak` copy made by
`shutil.copy2`) or a single-entry deflate archive storing `payload` under
the entry name `entry` (as written by `zipfile.ZipFile(...).write`). -/
inductive FileData where
  | raw (bytes : List Nat)
  | zipped (entry : String) (payload : List Nat)
  deriving DecidableEq, Repr

/-- Opaque serialisation of stored file data to the raw bytes found on disk.
For a `.bak` file the on-disk bytes are the payload itself; for an archive
they are some encoding of the entry name and the payload. -/
def FileData.onDiskBytes : FileData → List Nat
  | FileData.raw bytes => bytes
  | FileData.zipped entry payload => entry.length :: (entry.data.map Char.toNat) ++ payload

/-- The save-file content a backup materialises when restored: raw bytes,
or the archive payload. -/
def FileData.storedContent : FileData → List Nat
  | FileData.raw bytes => bytes
  | FileData.zipped _ payload => payload

/-- A file in the backup directory: filename, modification time, data. -/
structure BFile where
  name : String
  mtime : Nat
  data : FileData
  deriving DecidableEq, Repr

/-- Observable engine outputs: each constructor is one of the callbacks the
handler receives (`status_callback`, `created_callback`, `pruned_callback`,
`backup_notification_callback`, `status_notification_callback`). -/
inductive Event where
  | status (msg : String)
  | created (backup_filename : String)
  | pruned (backup_filename : String)
  | backupNotification (title msg : String)
  | statusNotification (title msg : String)
  deriving DecidableEq, Repr

/-- Recogniser for `Event.created` events. -/
def Event.isCreated : Event → Bool
  | Event.created _ => true
  | _ => false

/-- Names carried by the `created` events of an event trace, in order. -/
def createdNames (evs : List Event) : List String :=
  evs.filterMap (fun e => match e with | Event.created n => some n | _ => none)

/-! ## Naming codec (`utils.get_original_from_backup` and the encoder inlined
in `check_and_create_backup`). -/

/-- Newline detector on character lists (used to model the fact that `.` in a
Python regular expression does not match a newline). -/
def hasNewline : List Char → Bool
  | [] => false
  | c :: cs => (c == '\n') || hasNewline cs

/-- Lower-case a character list (models `re.IGNORECASE` on the ASCII letters
appearing in the pattern). -/
def lowerChars (cs : List Char) : List Char := cs.map Char.toLower

/-- Timestamp shape `YYYY-MM-DD_HH-MM-SS`: `none` marks a digit position
(`\d`, restricted to ASCII digits, which is all `strftime` produces), and
`some c` a literal character. -/
def tsShape : List (Option Char) :=
  [none, none, none, none, some '-', none, none, some '-', none, none,
   some '_', none, none, some '-', none, none, some '-', none, none]

/-- Match a character list against a shape of digit positions and literals. -/
def matchesShape : List (Option Char) → List Char → Bool
  | [], [] => true
  | none :: ps, c :: cs => c.isDigit && matchesShape ps cs
  | some d :: ps, c :: cs => (c == d) && matchesShape ps cs
  | _, _ => false

/-- Check that a character list is exactly a `YYYY-MM-DD_HH-MM-SS` timestamp. -/
def timestampOk (cs : List Char) : Bool := matchesShape tsShape cs

/-- The `.save` extension required of the decoded original name, lower-cased. -/
def saveTail : List Char := ['.', 's', 'a', 'v', 'e']

/-! Model of `utils.get_original_from_backup`.

The source matches `re.match(r'(.*?\.save)_(ts)\.(bak|zip)$', s, re.IGNORECASE)`
where `ts` is the 19-character timestamp pattern and returns group 1.
Everything to the right of group 1 (`_`, the timestamp, `.`, `bak` or `zip`)
has fixed total length 24, and the match is anchored at both ends, so a match
exists if and only if the string splits as `p ++ suffix24` where

* `suffix24` is `_` followed by a timestamp, a dot and `bak`/`zip`
  (extension case-insensitive), and
* `p` (group 1) ends, case-insensitively, in `.save`, with no newline in the
  part matched by `.*?` (Python `.` does not match `\n`).

In that case group 1 is forced to be `p` (its length is determined by the
fixed suffix length), regardless of laziness or backtracking.  Python's `$`
also matches just before one trailing newline, which the model reproduces by
stripping one trailing newline first.  Inputs that are not strings
(`None` in the source) are outside the model. -/

/-- Drop one trailing newline, the way `$` allows (see the module comment). -/
def stripTrailingNewline (cs : List Char) : List Char :=
  if cs.getLast? == some '\n' then cs.dropLast else cs

/-- Core of the codec match on a character list with any trailing newline
already stripped: group 1 is the first `length - 24` characters whenever the
split described above succeeds. -/
def decodeCore (cs : List Char) : Option (List Char) :=
  if cs.length < 29 then none
  else if (cs.drop (cs.length - 24)).take 1 == ['_']
      && timestampOk (((cs.drop (cs.length - 24)).drop 1).take 19)
      && ((cs.drop (cs.length - 24)).drop 20).take 1 == ['.']
      && (lowerChars ((cs.drop (cs.length - 24)).drop 21) == ['b', 'a', 'k']
          || lowerChars ((cs.drop (cs.length - 24)).drop 21) == ['z', 'i', 'p'])
      && lowerChars ((cs.take (cs.length - 24)).drop (cs.length - 24 - 5)) == saveTail
      && !(hasNewline ((cs.take (cs.length - 24)).take (cs.length - 24 - 5)))
  then some (cs.take (cs.length - 24))
  else none

/-- The decoded original name of a backup filename, on character lists. -/
def decodeChars (cs0 : List Char) : Option (List Char) :=
  decodeCore (stripTrailingNewline cs0)

def get_original_from_backup (s : String) : Option String :=
  (decodeChars s.data).map String.mk

/-- Backup-filename encoder, inlined in `check_and_create_backup`:
`f"{name}_{timestamp}.zip"` when compression is on, else `.bak`. -/
def encodeBackupName (original_filename timestamp : String) (compressed : Bool) : String :=
  original_filename ++ "_" ++ timestamp ++ (if compressed then ".zip" else ".bak")

/-- Validity of an original save filename: at least five characters, ends
(case-insensitively) in `.save`, and contains no newline. -/
def validSaveName (s : String) : Bool :=
  decide (5 ≤ s.data.length)
    && lowerChars (s.data.drop (s.data.length - 5)) == saveTail
    && !(hasNewline s.data)

/-- Timestamp field values, as produced by `datetime.now()`. -/
structure Timestamp where
  year : Nat
  month : Nat
  day : Nat
  hour : Nat
  minute : Nat
  second : Nat
  deriving DecidableEq, Repr

/-- Last decimal digit of a number, as a character. -/
def digitChar (k : Nat) : Char := Char.ofNat (48 + k % 10)

/-- Two-digit zero-padded decimal rendering (`%m`, `%d`, `%H`, `%M`, `%S`). -/
def pad2 (n : Nat) : List Char := [digitChar (n / 10), digitChar n]

/-- Four-digit zero-padded decimal rendering (`%Y` for years up to 9999). -/
def pad4 (n : Nat) : List Char :=
  [digitChar (n / 1000), digitChar (n / 100), digitChar (n / 10), digitChar n]

/-- Model of `datetime.now().strftime("%Y-%m-%d_%H-%M-%S")`. -/
def strfTimestamp (t : Timestamp) : String :=
  String.mk (pad4 t.year ++ ['-'] ++ pad2 t.month ++ ['-'] ++ pad2 t.day
    ++ ['_'] ++ pad2 t.hour ++ ['-'] ++ pad2 t.minute ++ ['-'] ++ pad2 t.second)

example : get_original_from_backup "Slot_00000002.save_2023-10-27_10-30-00.bak"
    = some "Slot_00000002.save" := by decide
example : get_original_from_backup "slot_00000003.save_2024-01-01_12-00-00.ZIP"
    = some "slot_00000003.save" := by decide
example : get_original_from_backup "NotAValidBackup.txt" = none := by decide
example : get_original_from_backup "Slot_00000002.save_2023-10-27_10-30-00.backup"
    = none := by decide
example : get_original_from_backup
    (encodeBackupName "a.save" (strfTimestamp ⟨2023, 10, 27, 10, 30, 0⟩) true)
    = some "a.save" := by decide

/-! ## Content fingerprinter (`BackupHandler._calculate_hash`). -/

/-- One attempt of the retry loop in `_calculate_hash`: either the whole file
is read successfully (yielding its content), or an `IOError`/`PermissionError`
is raised after some prefix of the chunks was already fed to the hasher. -/
inductive ReadAttempt where
  | success (content : List Nat)
  | failure (bytesRead : List Nat)
  deriving DecidableEq, Repr

/-- The retry loop of `_calculate_hash`.  Faithful to the source, the
`sha256` object is created once, before the loop, so bytes fed during a
failed attempt stay in the hasher state for later attempts.  Chunking by
4096 bytes is immaterial here because updating the hasher chunk by chunk
feeds exactly the concatenation of the chunks. -/
def calcHashLoop (sha : List Nat) : List ReadAttempt → Option Digest
  | [] => none
  | ReadAttempt.success content :: _ => some (sha ++ content)
  | ReadAttempt.failure bytesRead :: rest => calcHashLoop (sha ++ bytesRead) rest

/-- Model of `_calculate_hash` (source name `_calculate_hash`): the schedule
lists the outcome of each attempt; its length is the retry bound (3 in the
source) when every attempt fails.  After the loop exhausts the schedule the
source emits a file-read-failure notification and returns `None`. -/
def calculate_hash (file_basename : String) (schedule : List ReadAttempt) :
    Option Digest × List Event :=
  match calcHashLoop [] schedule with
  | some d => (some d, [])
  | none => (none, [Event.statusNotification "File Read Error"
      ("Failed to read " ++ file_basename ++ " after 3 attempts.")])

/-! ## Hash table (`self.last_backup_hashes`, a Python dict). -/

abbrev HashTable := List (String × Digest)

/-- Dict lookup (`dict.get`). -/
def lookupTable (t : HashTable) (k : String) : Option Digest :=
  match t with
  | [] => none
  | (k', v) :: rest => if k' = k then some v else lookupTable rest k

/-- Dict assignment (`d[k] = v`): overwrite in place, or append a new key. -/
def insertTable (t : HashTable) (k : String) (v : Digest) : HashTable :=
  match t with
  | [] => [(k, v)]
  | (k', v') :: rest => if k' = k then (k', v) :: rest else (k', v') :: insertTable rest k v

/-! ## Retention pruner (`BackupHandler.prune_backups`). -/

/-- Ascending comparison by modification time, the sort key of the pruner. -/
def mtimeLE (a b : BFile) : Prop := a.mtime ≤ b.mtime

instance : DecidableRel mtimeLE := fun a b => Nat.decLe a.mtime b.mtime

instance : IsTotal BFile mtimeLE := ⟨fun a b => Nat.le_total a.mtime b.mtime⟩

instance : IsTrans BFile mtimeLE := ⟨fun _ _ _ => Nat.le_trans⟩

/-- The backups in `dir` whose decoded original name is `original_filename`
(the listing filter at the top of `prune_backups`). -/
def backupsFor (dir : List BFile) (original_filename : String) : List BFile :=
  dir.filter (fun f => get_original_from_backup f.name == some original_filename)

/-- The files `prune_backups` selects for deletion: the matching backups,
sorted ascending by modification time (Python's stable sort, matched by
insertion sort), truncated to the first `count - backup_count` when the
count exceeds the retention limit. -/
def pruneSelection (backup_count : Nat) (dir : List BFile) (original_filename : String) :
    List BFile :=
  if backup_count < (List.insertionSort mtimeLE (backupsFor dir original_filename)).length then
    (List.insertionSort mtimeLE (backupsFor dir original_filename)).take
      ((List.insertionSort mtimeLE (backupsFor dir original_filename)).length - backup_count)
  else []

/-- Events of the deletion loop: for each selected file, either the
`FileNotFoundError` branch (file already gone: one informational skip
notification) or a successful `os.remove` (status, pruned callback and
notification). -/
def pruneEventsFor (original_filename : String) (missing : List String)
    (sel : List BFile) : List Event :=
  sel.flatMap (fun f =>
    if missing.contains f.name then
      [Event.statusNotification "Prune Info"
        ("Prune skipping: " ++ f.name ++ " was already deleted.")]
    else
      [Event.status ("Pruned old backup: " ++ f.name),
       Event.pruned f.name,
       Event.backupNotification "Backup Pruned"
         ("Old backup of " ++ original_filename ++ " pruned.")])

/-- Model of `prune_backups`.  `dir` is the directory listing taken by
`os.listdir`; `missing` are the names that were deleted externally between
the listing and the `os.remove` calls (those files are gone from disk and
their removal raises `FileNotFoundError`, which the source catches and
skips).  Returns the directory contents afterwards and the emitted events. -/
def prune_backups (backup_count : Nat) (dir : List BFile) (missing : List String)
    (original_filename : String) : List BFile × List Event :=
  let sel := pruneSelection backup_count dir original_filename
  let newDir := dir.filter (fun f =>
    !(missing.contains f.name) && !((sel.map BFile.name).contains f.name))
  (newDir, pruneEventsFor original_filename missing sel)

/-! ## Backup engine (`BackupHandler.check_and_create_backup`). -/

/-- Points inside the `try` block of `check_and_create_backup` at which an
exception may be raised: while ensuring the backup directory exists
(`os.makedirs`), while writing the backup file (`zipfile`/`shutil.copy2`),
or while emitting the created event (`created_callback`). -/
inductive FailPoint where
  | atEnsureDir
  | atWrite
  | atEmitCreated
  deriving DecidableEq, Repr

/-- Events emitted by the `except` clause of `check_and_create_backup`
(exception text abstracted away). -/
def errorEvents (original_filename : String) : List Event :=
  [Event.status "Error creating backup",
   Event.statusNotification "Backup Error"
     ("Error creating backup for " ++ original_filename)]

/-- In-memory engine state: the hash table and the backup directory. -/
structure EngineState where
  last_backup_hashes : HashTable
  backupDir : List BFile
  deriving DecidableEq, Repr

/-- Model of `check_and_create_backup`.

`readResult` is the outcome of the `_calculate_hash` call on the live file
(`none` models exhausted retries); under the ideal-hash model the digest of
the content *is* the content.  `timestamp` is the `strftime` string,
`newMtime` the modification time the written backup file ends up with, and
`fail` injects at most one exception inside the `try` block; `fail = none`
is the fault-free run.  The returned event list is the trace of callback
invocations (including those made inside `_calculate_hash` and
`prune_backups`); the returned state reflects the mutations that happened
before any injected exception, since the `except` clause only reports. -/
def check_and_create_backup (backup_count : Nat) (compress_backups : Bool)
    (st : EngineState) (original_filename : String)
    (readResult : Option (List Nat)) (timestamp : String) (newMtime : Nat)
    (fail : Option FailPoint) : EngineState × List Event :=
  match readResult with
  | none =>
      (st, [Event.statusNotification "File Read Error"
              ("Failed to read " ++ original_filename ++ " after 3 attempts."),
            Event.statusNotification "Backup Error"
              ("Failed to read " ++ original_filename ++ " for backup.")])
  | some content =>
      let current_hash : Digest := content
      if lookupTable st.last_backup_hashes original_filename = some current_hash then
        (st, [Event.status ("Content of " ++ original_filename ++ " unchanged. Skipping.")])
      else if fail = some FailPoint.atEnsureDir ∨ fail = some FailPoint.atWrite then
        (st, errorEvents original_filename)
      else
        let backup_filename := encodeBackupName original_filename timestamp compress_backups
        let newFile : BFile := ⟨backup_filename, newMtime,
          if compress_backups then FileData.zipped original_filename content
          else FileData.raw content⟩
        let table' := insertTable st.last_backup_hashes original_filename current_hash
        if fail = some FailPoint.atEmitCreated then
          (⟨table', st.backupDir ++ [newFile]⟩,
           [Event.status ("Created backup: " ++ backup_filename),
            Event.backupNotification "Backup Created"
              ("Backup of " ++ original_filename ++ " created.")]
           ++ errorEvents original_filename)
        else
          let pruned := prune_backups backup_count (st.backupDir ++ [newFile]) [] original_filename
          (⟨table', pruned.1⟩,
           [Event.status ("Created backup: " ++ backup_filename),
            Event.backupNotification "Backup Created"
              ("Backup of " ++ original_filename ++ " created."),
            Event.created backup_filename]
           ++ pruned.2)

/-! ## Initial reconciler (`BackupHandler._initialize_and_create_initial_backups`). -/

/-- Descending comparison by modification time (`sort(..., reverse=True)`). -/
def mtimeGE (a b : BFile) : Prop := b.mtime ≤ a.mtime

instance : DecidableRel mtimeGE := fun a b => Nat.decLe b.mtime a.mtime

instance : IsTotal BFile mtimeGE := ⟨fun a b => Nat.le_total b.mtime a.mtime⟩

instance : IsTrans BFile mtimeGE := ⟨fun _ _ _ h h' => Nat.le_trans h' h⟩

/-- Append a file to the group of its original name, keeping dict insertion
order, creating the group if absent. -/
def addToGroup (gs : List (String × List BFile)) (k : String) (f : BFile) :
    List (String × List BFile) :=
  match gs with
  | [] => [(k, [f])]
  | (k', fs) :: rest =>
      if k' = k then (k', fs ++ [f]) :: rest else (k', fs) :: addToGroup rest k f

/-- Case-sensitive suffix test (`str.endswith`), on the character lists. -/
def strEndsWith (s suffix : String) : Bool :=
  s.data.drop (s.data.length - suffix.data.length) == suffix.data

/-- The grouping loop at the top of the reconciler: every listed file whose
name ends in `.bak` (a case-sensitive `str.endswith` check in the source)
and decodes to an original name is appended to that name's group; all other
files — including every `.zip` backup — are ignored. -/
def grouped_backups (dir : List BFile) : List (String × List BFile) :=
  dir.foldl (fun gs f =>
    if strEndsWith f.name ".bak" then
      match get_original_from_backup f.name with
      | some original_name => addToGroup gs original_name f
      | none => gs
    else gs) []

/-- The seeding loop of the reconciler: for each group, sort descending by
modification time, hash the first (latest) file's on-disk bytes, and record
the digest unless hashing failed (`hashFail` lists the filenames whose
`_calculate_hash` returns `None`). -/
def seedHashes (dir : List BFile) (hashFail : List String) : HashTable :=
  (grouped_backups dir).foldl (fun tbl kv =>
    match List.insertionSort mtimeGE kv.2 with
    | [] => tbl
    | latest :: _ =>
        if hashFail.contains latest.name then tbl
        else insertTable tbl kv.1 latest.data.onDiskBytes) []

/-- Model of `_initialize_and_create_initial_backups` (fault-free run with
the stop flag never raised): seed the hash table from existing `.bak`
backups, then walk the snapshot of live `.save` files and call
`check_and_create_backup` for each name not already a key of the table.
`liveFiles` pairs each live filename with its content; `stampOf` supplies
the timestamp string and resulting backup modification time used when a
backup is created for a given name. -/
def initialize_and_create_initial_backups (backup_count : Nat) (compress_backups : Bool)
    (backupDir : List BFile) (liveFiles : List (String × List Nat))
    (stampOf : String → String × Nat) (hashFail : List String) :
    EngineState × List Event :=
  let table := seedHashes backupDir hashFail
  let save_files_to_check := liveFiles.filter (fun p => strEndsWith p.1 ".save")
  save_files_to_check.foldl (fun acc p =>
    if (lookupTable acc.1.last_backup_hashes p.1).isSome then acc
    else
      let r := check_and_create_backup backup_count compress_backups acc.1 p.1
        (some p.2) (stampOf p.1).1 (stampOf p.1).2 none
      (r.1, acc.2
        ++ [Event.statusNotification "Initial Backup Info"
              ("File " ++ p.1 ++ " has no backup. Creating initial one."),
            Event.status ("Creating initial backup for " ++ p.1)]
        ++ r.2
        ++ [Event.backupNotification "Initial Backup Created"
              ("Backup of " ++ p.1 ++ " created.")]))
    (⟨table, backupDir⟩, [])

/-! ## Restore (`BackupService.restore_backup_file`). -/

/-- A filesystem path, split as `os.path.dirname` and `os.path.basename`. -/
structure FPath where
  dir : String
  base : String
  deriving DecidableEq, Repr

/-- A filesystem fragment: an association of paths to file data. -/
abbrev FS := List (FPath × FileData)

/-- Content of the file at a path, if one exists. -/
def fsGet (fs : FS) (p : FPath) : Option FileData :=
  match fs with
  | [] => none
  | (q, d) :: rest => if q = p then some d else fsGet rest p

/-- Delete the file at a path. -/
def fsRemove (fs : FS) (p : FPath) : FS :=
  fs.filter (fun e => !(decide (e.1 = p)))

/-- Write file data at a path, overwriting any existing file. -/
def fsSet (fs : FS) (p : FPath) (d : FileData) : FS :=
  fsRemove fs p ++ [(p, d)]

/-- Rename (`shutil.move` / `os.rename`): move the data at `src` to `dst`,
overwriting `dst`.  A missing source leaves the filesystem unchanged (the
callers guard existence). -/
def fsMove (fs : FS) (src dst : FPath) : FS :=
  match fsGet fs src with
  | none => fs
  | some d => fsSet (fsRemove fs src) dst d

/-- Model of `BackupService.restore_backup_file`.

For a live restore over an existing destination, the live file is first
renamed to `<base>.pre-restore-<timestamp>` in the same directory.  A
compressed backup must be an archive whose entry name is
`original_savename`; it is extracted into the destination's directory under
the entry name (yielding a raw file with the archive payload), and for a
non-live restore the extracted file is then renamed onto the destination
path.  A raw backup is copied onto the destination with `shutil.copy2`.
Failures (missing backup, not an archive, wrong entry) are re-raised to the
caller, modelled as `Except.error`. -/
def restore_backup_file (fs : FS) (backup_source_path destination_path : FPath)
    (original_savename : String) (is_compressed is_live_restore : Bool)
    (timestamp : String) : Except String (FS × List Event) :=
  let safety_path : FPath :=
    ⟨destination_path.dir, destination_path.base ++ ".pre-restore-" ++ timestamp⟩
  let doSafety := is_live_restore && (fsGet fs destination_path).isSome
  let fs1 := if doSafety then fsMove fs destination_path safety_path else fs
  let evs1 : List Event :=
    if doSafety then
      [Event.statusNotification "Restore Info"
        ("Renamed existing live save to " ++ safety_path.base ++ " as safety backup.")]
    else []
  let okEvent : Event := Event.statusNotification "Restore Success"
    ("Successfully restored " ++ backup_source_path.base ++ ".")
  if is_compressed then
    match fsGet fs1 backup_source_path with
    | some (FileData.zipped entry payload) =>
        if entry = original_savename then
          let extract_path : FPath := ⟨destination_path.dir, original_savename⟩
          let fs2 := fsSet fs1 extract_path (FileData.raw payload)
          if is_live_restore then Except.ok (fs2, evs1 ++ [okEvent])
          else Except.ok (fsMove fs2 extract_path destination_path, evs1 ++ [okEvent])
        else Except.error "KeyError"
    | some (FileData.raw _) => Except.error "BadZipFile"
    | none => Except.error "FileNotFoundError"
  else
    match fsGet fs1 backup_source_path with
    | some d => Except.ok (fsSet fs1 destination_path d, evs1 ++ [okEvent])
    | none => Except.error "FileNotFoundError"

/-! ## Lemmas about the naming codec. -/

theorem hasNewline_take (k : Nat) (l : List Char) (h : hasNewline l = false) :
    hasNewline (l.take k) = false := by
  induction l generalizing k with
  | nil => cases k <;> simp [hasNewline]
  | cons c cs ih =>
      cases k with
      | zero => simp [hasNewline]
      | succ k =>
          simp only [hasNewline, Bool.or_eq_false_iff] at h
          simpa [hasNewline, Bool.or_eq_false_iff, h.1] using ih k h.2

theorem matchesShape_length (ps : List (Option Char)) (cs : List Char)
    (h : matchesShape ps cs = true) : cs.length = ps.length := by
  induction ps generalizing cs with
  | nil => cases cs <;> simp [matchesShape] at h ⊢
  | cons p ps ih =>
      cases cs with
      | nil => cases p <;> simp [matchesShape] at h
      | cons c cs =>
          cases p <;> simp only [matchesShape, Bool.and_eq_true] at h <;>
            simp [ih _ h.2]

theorem isDigit_digitChar (k : Nat) : (digitChar k).isDigit = true := by
  unfold digitChar
  have h : k % 10 < 10 := Nat.mod_lt _ (by decide)
  revert h
  generalize k % 10 = m
  intro h
  interval_cases m <;> decide

theorem timestampOk_strf (t : Timestamp) : timestampOk (strfTimestamp t).data = true := by
  simp [timestampOk, strfTimestamp, tsShape, matchesShape, pad4, pad2, isDigit_digitChar]

/-- Core splitting lemma: decoding an encoded filename recovers the original
name, provided the original ends (case-insensitively) in `.save`, contains
no newline, and the middle part has the timestamp shape. -/
theorem decodeCore_append (L T : List Char) (c : Bool)
    (h5 : 5 ≤ L.length)
    (hsave : lowerChars (L.drop (L.length - 5)) = saveTail)
    (hnl : hasNewline L = false)
    (hT : timestampOk T = true) :
    decodeCore (L ++ '_' :: (T ++ (if c then ['.', 'z', 'i', 'p'] else ['.', 'b', 'a', 'k'])))
      = some L := by
  have hTlen : T.length = 19 := matchesShape_length _ _ hT
  set E := (if c then ['.', 'z', 'i', 'p'] else ['.', 'b', 'a', 'k']) with hE
  have hElen : E.length = 4 := by cases c <;> simp [hE]
  set S := '_' :: (T ++ E) with hS
  have hSlen : S.length = 24 := by simp [hS, hTlen, hElen]
  have hlen : (L ++ S).length = L.length + 24 := by simp [hSlen]
  have hsub : (L ++ S).length - 24 = L.length := by omega
  have htake : (L ++ S).take ((L ++ S).length - 24) = L := by
    rw [hsub]; exact List.take_left L S
  have hdrop : (L ++ S).drop ((L ++ S).length - 24) = S := by
    rw [hsub]; exact List.drop_left L S
  have hdrop1 : S.drop 1 = T ++ E := by simp [hS]
  have hdrop20 : S.drop 20 = E := by
    have : S.drop 20 = (T ++ E).drop 19 := by simp [hS]
    rw [this, List.drop_left' hTlen]
  have hdrop21 : S.drop 21 = E.drop 1 := by
    have : S.drop 21 = (T ++ E).drop 20 := by simp [hS]
    rw [this]
    have h19 : (T ++ E).drop 19 = E := List.drop_left' hTlen
    calc (T ++ E).drop 20 = ((T ++ E).drop 19).drop 1 := by
          rw [List.drop_drop]
      _ = E.drop 1 := by rw [h19]
  rw [decodeCore]
  rw [if_neg (by omega)]
  rw [if_pos]
  · rw [htake]
  · rw [htake, hdrop, hdrop1, hdrop20, hdrop21, hsub]
    rw [List.take_left' hTlen]
    simp only [hS, hT, hsave]
    cases c <;> simp [hE, saveTail, lowerChars, hasNewline_take _ _ hnl]

theorem stripTrailingNewline_encoded (L T : List Char) (c : Bool) :
    stripTrailingNewline
        (L ++ '_' :: (T ++ (if c then ['.', 'z', 'i', 'p'] else ['.', 'b', 'a', 'k'])))
      = L ++ '_' :: (T ++ (if c then ['.', 'z', 'i', 'p'] else ['.', 'b', 'a', 'k'])) := by
  set E := (if c then ['.', 'z', 'i', 'p'] else ['.', 'b', 'a', 'k']) with hE
  have hlast : (L ++ '_' :: (T ++ E)).getLast? = some (if c then 'p' else 'k') := by
    have h1 : L ++ '_' :: (T ++ E) = (L ++ '_' :: T) ++ E := by simp
    rw [h1, List.getLast?_append]
    cases c <;> simp [hE]
  rw [stripTrailingNewline, hlast]
  cases c <;> simp

/-- Character-list form of the coding data of `encodeBackupName`. -/
theorem encodeBackupName_data (orig ts : String) (c : Bool) :
    (encodeBackupName orig ts c).data
      = orig.data ++ '_' :: (ts.data ++ (if c then ['.', 'z', 'i', 'p'] else ['.', 'b', 'a', 'k'])) := by
  cases c <;> simp [encodeBackupName]

/-- Decoding an encoded backup filename recovers the original name. -/
theorem decode_encodeBackupName (orig ts : String) (c : Bool)
    (hv : validSaveName orig = true) (hts : timestampOk ts.data = true) :
    get_original_from_backup (encodeBackupName orig ts c) = some orig := by
  simp only [validSaveName, Bool.and_eq_true, decide_eq_true_eq, beq_iff_eq,
    Bool.not_eq_true'] at hv
  obtain ⟨⟨h5, hsave⟩, hnl⟩ := hv
  rw [get_original_from_backup, encodeBackupName_data, decodeChars,
    stripTrailingNewline_encoded, decodeCore_append orig.data ts.data c h5 hsave hnl hts]
  have : String.mk orig.data = orig := rfl
  simp [this]

/-- C3: for every valid original filename (ending in the `.save` extension,
newline-free, hence without pattern collisions), every timestamp and both
compression modes, decoding the backup filename built by
`check_and_create_backup` returns exactly the original filename. -/
theorem C3_decode_encode_roundtrip (original : String) (t : Timestamp) (c : Bool)
    (hv : validSaveName original = true)
    (_hy : t.year ≤ 9999) (_hmo : t.month ≤ 99) (_hd : t.day ≤ 99)
    (_hh : t.hour ≤ 99) (_hmi : t.minute ≤ 99) (_hs : t.second ≤ 99) :
    get_original_from_backup (encodeBackupName original (strfTimestamp t) c)
      = some original :=
  decode_encodeBackupName original (strfTimestamp t) c hv (timestampOk_strf t)

theorem C3_decode_encode_roundtrip_witness :
    validSaveName "Slot_00000002.save" = true ∧
    get_original_from_backup
        (encodeBackupName "Slot_00000002.save" (strfTimestamp ⟨2023, 10, 27, 10, 30, 0⟩) false)
      = some "Slot_00000002.save" :=
  ⟨by decide,
   C3_decode_encode_roundtrip "Slot_00000002.save" ⟨2023, 10, 27, 10, 30, 0⟩ false
     (by decide) (by decide) (by decide) (by decide) (by decide) (by decide) (by decide)⟩

/-- C6 (refuting evaluation): schedule a first read attempt that feeds one
chunk to the hasher and then fails, and a second attempt that reads the whole
file `[1, 2]`.  Because the source creates the `sha256` object once, outside
the retry loop, the returned digest hashes `[1] ++ [1, 2]`, not the file
content `[1, 2]` the claim promises.  The final conjunct records the part of
the claim the code does satisfy: after all attempts fail, no digest is
returned. -/
theorem C6_calculate_hash_stale_hasher :
    (calculate_hash "a.save" [ReadAttempt.failure [1], ReadAttempt.success [1, 2]]).1
        = some [1, 1, 2]
      ∧ (some [1, 1, 2] : Option Digest) ≠ some [1, 2]
      ∧ (calculate_hash "a.save"
          [ReadAttempt.failure [1], ReadAttempt.failure [1], ReadAttempt.failure [1]])
        = (none, [Event.statusNotification "File Read Error"
            "Failed to read a.save after 3 attempts."]) :=
  ⟨rfl, by decide, rfl⟩

/-! ## Lemmas about the retention pruner. -/

theorem mem_backupsFor {dir : List BFile} {x : String} {f : BFile}
    (h : f ∈ backupsFor dir x) :
    f ∈ dir ∧ get_original_from_backup f.name = some x := by
  unfold backupsFor at h
  rw [List.mem_filter] at h
  exact ⟨h.1, by simpa using h.2⟩

theorem pruneSelection_mem {N : Nat} {dir : List BFile} {x : String} {f : BFile}
    (h : f ∈ pruneSelection N dir x) : f ∈ backupsFor dir x := by
  unfold pruneSelection at h
  split at h
  · exact ((List.perm_insertionSort mtimeLE (backupsFor dir x)).mem_iff).1
      (List.take_subset _ _ h)
  · cases h

/-- C10: a `prune_backups` call for one original name only removes files
whose decoded original name is that name; every file whose name decodes
differently, or does not decode at all, survives the call unchanged. -/
theorem C10_prune_frame (backup_count : Nat) (dir : List BFile) (x : String) :
    (∀ f ∈ dir, get_original_from_backup f.name ≠ some x →
        f ∈ (prune_backups backup_count dir [] x).1)
    ∧ (∀ f ∈ dir, f ∉ (prune_backups backup_count dir [] x).1 →
        get_original_from_backup f.name = some x) := by
  have hsel : ∀ n, ((pruneSelection backup_count dir x).map BFile.name).contains n = true →
      get_original_from_backup n = some x := by
    intro n hn
    have hn' : n ∈ (pruneSelection backup_count dir x).map BFile.name :=
      List.mem_of_elem_eq_true hn
    rw [List.mem_map] at hn'
    obtain ⟨g, hg, rfl⟩ := hn'
    exact (mem_backupsFor (pruneSelection_mem hg)).2
  constructor
  · intro f hf hne
    unfold prune_backups
    rw [List.mem_filter]
    refine ⟨hf, ?_⟩
    cases hc : ((pruneSelection backup_count dir x).map BFile.name).contains f.name with
    | true => exact absurd (hsel _ hc) hne
    | false => simp [hc]
  · intro f hf hmem
    unfold prune_backups at hmem
    rw [List.mem_filter] at hmem
    cases hc : ((pruneSelection backup_count dir x).map BFile.name).contains f.name with
    | true => exact hsel _ hc
    | false => exact absurd ⟨hf, by rw [hc]; rfl⟩ hmem

theorem C10_prune_frame_witness :
    (∀ f ∈ [BFile.mk "a.save_2023-01-01_00-00-00.bak" 1 (FileData.raw []),
            BFile.mk "other.txt" 2 (FileData.raw [])],
        get_original_from_backup f.name ≠ some "b.save" →
          f ∈ (prune_backups 0
            [BFile.mk "a.save_2023-01-01_00-00-00.bak" 1 (FileData.raw []),
             BFile.mk "other.txt" 2 (FileData.raw [])] [] "b.save").1)
    ∧ (∀ f ∈ [BFile.mk "a.save_2023-01-01_00-00-00.bak" 1 (FileData.raw []),
              BFile.mk "other.txt" 2 (FileData.raw [])],
        f ∉ (prune_backups 0
            [BFile.mk "a.save_2023-01-01_00-00-00.bak" 1 (FileData.raw []),
             BFile.mk "other.txt" 2 (FileData.raw [])] [] "b.save").1 →
          get_original_from_backup f.name = some "b.save") :=
  C10_prune_frame 0
    [BFile.mk "a.save_2023-01-01_00-00-00.bak" 1 (FileData.raw []),
     BFile.mk "other.txt" 2 (FileData.raw [])] "b.save"

theorem backupsFor_names_nodup {dir : List BFile} (x : String)
    (h : (dir.map BFile.name).Nodup) : ((backupsFor dir x).map BFile.name).Nodup :=
  (List.Sublist.map BFile.name (List.filter_sublist dir)).nodup h

/-- The pruner's selection is an initial segment of the sorted matching list. -/
theorem pruneSelection_initSegment (N : Nat) (dir : List BFile) (x : String) :
    pruneSelection N dir x
        ++ (List.insertionSort mtimeLE (backupsFor dir x)).drop
            (pruneSelection N dir x).length
      = List.insertionSort mtimeLE (backupsFor dir x) := by
  unfold pruneSelection
  split
  · rw [List.length_take, Nat.min_eq_left (Nat.sub_le _ _)]
    exact List.take_append_drop _ _
  · simp

/-- Filtering away a prefix of name-distinct files by name keeps exactly the
remainder. -/
theorem filter_out_prefix_names (sel rest : List BFile)
    (hnd : ((sel ++ rest).map BFile.name).Nodup) :
    (sel ++ rest).filter (fun f => !(([] : List String).contains f.name)
        && !((sel.map BFile.name).contains f.name)) = rest := by
  rw [List.map_append] at hnd
  have hdisj := (List.nodup_append.1 hnd).2.2
  rw [List.filter_append]
  have h1 : sel.filter (fun f => !(([] : List String).contains f.name)
      && !((sel.map BFile.name).contains f.name)) = [] := by
    refine List.filter_eq_nil_iff.2 ?_
    intro a ha
    have hmem : a.name ∈ sel.map BFile.name := List.mem_map_of_mem _ ha
    have hc : (sel.map BFile.name).contains a.name = true := List.elem_eq_true_of_mem hmem
    simp only [hc, Bool.not_true, Bool.and_false]
    exact Bool.false_ne_true
  have h2 : rest.filter (fun f => !(([] : List String).contains f.name)
      && !((sel.map BFile.name).contains f.name)) = rest := by
    refine List.filter_eq_self.2 ?_
    intro a ha
    have hnot : a.name ∉ sel.map BFile.name := by
      intro hc
      exact hdisj hc (List.mem_map_of_mem _ ha)
    cases hcon : (sel.map BFile.name).contains a.name with
    | true => exact absurd (List.mem_of_elem_eq_true hcon) hnot
    | false => simp [hcon]
  rw [h1, h2, List.nil_append]

/-- After pruning, the matching backups that remain are exactly (up to
permutation) the sorted matching list with the selection removed. -/
theorem prune_remaining (N : Nat) (dir : List BFile) (x : String)
    (hnames : (dir.map BFile.name).Nodup) :
    List.Perm (backupsFor (prune_backups N dir [] x).1 x)
      ((List.insertionSort mtimeLE (backupsFor dir x)).drop
          (pruneSelection N dir x).length) := by
  have hMperm : List.Perm (List.insertionSort mtimeLE (backupsFor dir x))
      (backupsFor dir x) :=
    List.perm_insertionSort _ _
  have h1 : backupsFor (prune_backups N dir [] x).1 x
      = (backupsFor dir x).filter (fun f => !(([] : List String).contains f.name)
          && !(((pruneSelection N dir x).map BFile.name).contains f.name)) := by
    show List.filter _ (List.filter _ dir) = List.filter _ (List.filter _ dir)
    rw [List.filter_filter, List.filter_filter]
    exact List.filter_congr (fun f _ => Bool.and_comm _ _)
  have hnodS : ((List.insertionSort mtimeLE (backupsFor dir x)).map BFile.name).Nodup :=
    (List.Perm.nodup_iff (hMperm.map BFile.name)).2 (backupsFor_names_nodup x hnames)
  have hstep2 : (List.insertionSort mtimeLE (backupsFor dir x)).filter
        (fun f => !(([] : List String).contains f.name)
          && !(((pruneSelection N dir x).map BFile.name).contains f.name))
      = (List.insertionSort mtimeLE (backupsFor dir x)).drop
          (pruneSelection N dir x).length := by
    rw [← pruneSelection_initSegment N dir x] at hnodS ⊢
    rw [List.drop_left]
    exact filter_out_prefix_names _ _ hnodS
  rw [h1, ← hstep2]
  exact (List.Perm.filter _ hMperm).symm

/-- Every selected (deleted) file is strictly older than every matching file
that is not selected, given pairwise-distinct modification times. -/
theorem pruneSelection_oldest (N : Nat) (dir : List BFile) (x : String)
    (hmt : ((backupsFor dir x).map BFile.mtime).Nodup) :
    ∀ d ∈ pruneSelection N dir x, ∀ q ∈ backupsFor dir x,
      q ∉ pruneSelection N dir x → d.mtime < q.mtime := by
  intro d hd q hq hqn
  by_cases hlt : N < (List.insertionSort mtimeLE (backupsFor dir x)).length
  case neg =>
    unfold pruneSelection at hd
    rw [if_neg hlt] at hd
    cases hd
  case pos =>
    have hseleq : pruneSelection N dir x
        = (List.insertionSort mtimeLE (backupsFor dir x)).take
            ((List.insertionSort mtimeLE (backupsFor dir x)).length - N) := by
      unfold pruneSelection
      rw [if_pos hlt]
    have hperm : List.Perm (List.insertionSort mtimeLE (backupsFor dir x))
        (backupsFor dir x) :=
      List.perm_insertionSort _ _
    have hsorted : List.Sorted mtimeLE (List.insertionSort mtimeLE (backupsFor dir x)) :=
      List.sorted_insertionSort _ _
    have hqS : q ∈ List.insertionSort mtimeLE (backupsFor dir x) := hperm.mem_iff.2 hq
    rw [← List.take_append_drop
      ((List.insertionSort mtimeLE (backupsFor dir x)).length - N)
      (List.insertionSort mtimeLE (backupsFor dir x))] at hqS hsorted
    have hqdrop : q ∈ (List.insertionSort mtimeLE (backupsFor dir x)).drop
        ((List.insertionSort mtimeLE (backupsFor dir x)).length - N) := by
      rcases List.mem_append.1 hqS with h | h
      · exact absurd (by rw [hseleq]; exact h) hqn
      · exact h
    have hdtake : d ∈ (List.insertionSort mtimeLE (backupsFor dir x)).take
        ((List.insertionSort mtimeLE (backupsFor dir x)).length - N) := by
      rw [hseleq] at hd
      exact hd
    have hle : d.mtime ≤ q.mtime :=
      (List.pairwise_append.1 hsorted).2.2 d hdtake q hqdrop
    refine Nat.lt_of_le_of_ne hle ?_
    intro heq
    have hdM : d ∈ backupsFor dir x := pruneSelection_mem hd
    have : d = q := List.inj_on_of_nodup_map hmt hdM hq heq
    rw [this] at hd
    exact hqn hd

/-- C2: when `retention_count + k` backups (`k ≥ 1`, pairwise-distinct
modification times) decode to one original name, pruning deletes exactly `k`
files, leaves exactly `retention_count` matching files, and every deleted
file is strictly older (by modification time) than every matching file that
remains. -/
theorem C2_prune_keeps_newest (backup_count k : Nat) (dir : List BFile) (x : String)
    (hk : 1 ≤ k)
    (hcount : (backupsFor dir x).length = backup_count + k)
    (hmt : ((backupsFor dir x).map BFile.mtime).Nodup)
    (hnames : (dir.map BFile.name).Nodup) :
    (pruneSelection backup_count dir x).length = k
    ∧ (backupsFor (prune_backups backup_count dir [] x).1 x).length = backup_count
    ∧ ∀ d ∈ pruneSelection backup_count dir x, ∀ q ∈ backupsFor dir x,
        q ∉ pruneSelection backup_count dir x → d.mtime < q.mtime := by
  have hSlen : (List.insertionSort mtimeLE (backupsFor dir x)).length = backup_count + k := by
    rw [(List.perm_insertionSort mtimeLE (backupsFor dir x)).length_eq, hcount]
  have hlt : backup_count < (List.insertionSort mtimeLE (backupsFor dir x)).length := by
    omega
  have hsellen : (pruneSelection backup_count dir x).length = k := by
    unfold pruneSelection
    rw [if_pos hlt, List.length_take, hSlen]
    omega
  refine ⟨hsellen, ?_, pruneSelection_oldest backup_count dir x hmt⟩
  have h2 := (prune_remaining backup_count dir x hnames).length_eq
  rw [List.length_drop, hSlen, hsellen] at h2
  rw [h2]
  omega

theorem C2_prune_keeps_newest_witness :
    (1 ≤ 1
      ∧ (backupsFor [BFile.mk "a.save_2023-01-01_00-00-00.bak" 1 (FileData.raw []),
                     BFile.mk "a.save_2023-01-01_00-00-01.bak" 2 (FileData.raw [])]
          "a.save").length = 1 + 1
      ∧ (([BFile.mk "a.save_2023-01-01_00-00-00.bak" 1 (FileData.raw []),
           BFile.mk "a.save_2023-01-01_00-00-01.bak" 2 (FileData.raw [])].map BFile.name).Nodup))
    ∧ ((pruneSelection 1 [BFile.mk "a.save_2023-01-01_00-00-00.bak" 1 (FileData.raw []),
          BFile.mk "a.save_2023-01-01_00-00-01.bak" 2 (FileData.raw [])] "a.save").length = 1
      ∧ (backupsFor (prune_backups 1
            [BFile.mk "a.save_2023-01-01_00-00-00.bak" 1 (FileData.raw []),
             BFile.mk "a.save_2023-01-01_00-00-01.bak" 2 (FileData.raw [])] [] "a.save").1
          "a.save").length = 1
      ∧ ∀ d ∈ pruneSelection 1
            [BFile.mk "a.save_2023-01-01_00-00-00.bak" 1 (FileData.raw []),
             BFile.mk "a.save_2023-01-01_00-00-01.bak" 2 (FileData.raw [])] "a.save",
          ∀ q ∈ backupsFor
            [BFile.mk "a.save_2023-01-01_00-00-00.bak" 1 (FileData.raw []),
             BFile.mk "a.save_2023-01-01_00-00-01.bak" 2 (FileData.raw [])] "a.save",
            q ∉ pruneSelection 1
              [BFile.mk "a.save_2023-01-01_00-00-00.bak" 1 (FileData.raw []),
               BFile.mk "a.save_2023-01-01_00-00-01.bak" 2 (FileData.raw [])] "a.save" →
              d.mtime < q.mtime) :=
  ⟨⟨by decide, by decide, by decide⟩,
   C2_prune_keeps_newest 1 1
     [BFile.mk "a.save_2023-01-01_00-00-00.bak" 1 (FileData.raw []),
      BFile.mk "a.save_2023-01-01_00-00-01.bak" 2 (FileData.raw [])] "a.save"
     (by decide) (by decide) (by decide) (by decide)⟩

/-- C8: when one of the files selected for deletion is already gone
(externally deleted between listing and removal), the pruner — whose
per-file `FileNotFoundError` handler is part of the model, so the call
always returns normally — emits an informational skip event for that file,
still removes every other selected file from the directory, and the missing
file is likewise no longer present. -/
theorem C8_prune_skips_missing (backup_count : Nat) (dir : List BFile) (x : String)
    (m : BFile) (hm : m ∈ pruneSelection backup_count dir x) :
    (∀ f ∈ pruneSelection backup_count dir x,
        f ∉ (prune_backups backup_count dir [m.name] x).1)
    ∧ (Event.statusNotification "Prune Info"
          ("Prune skipping: " ++ m.name ++ " was already deleted."))
        ∈ (prune_backups backup_count dir [m.name] x).2
    ∧ ∀ f ∈ pruneSelection backup_count dir x, f.name ≠ m.name →
        (Event.pruned f.name) ∈ (prune_backups backup_count dir [m.name] x).2 := by
  refine ⟨?_, ?_, ?_⟩
  · intro f hf hmem
    have hname : ((pruneSelection backup_count dir x).map BFile.name).contains f.name
        = true :=
      List.elem_eq_true_of_mem (List.mem_map_of_mem _ hf)
    unfold prune_backups at hmem
    rw [List.mem_filter] at hmem
    rw [hname] at hmem
    simp at hmem
  · show _ ∈ pruneEventsFor x [m.name] (pruneSelection backup_count dir x)
    unfold pruneEventsFor
    rw [List.mem_flatMap]
    refine ⟨m, hm, ?_⟩
    have : ([m.name] : List String).contains m.name = true := by simp
    rw [this]
    simp
  · intro f hf hne
    show _ ∈ pruneEventsFor x [m.name] (pruneSelection backup_count dir x)
    unfold pruneEventsFor
    rw [List.mem_flatMap]
    refine ⟨f, hf, ?_⟩
    have : ([m.name] : List String).contains f.name = false := by
      simp [hne]
    rw [this]
    simp

theorem C8_prune_skips_missing_witness :
    (BFile.mk "a.save_2023-01-01_00-00-00.bak" 1 (FileData.raw [])
        ∈ pruneSelection 1
          [BFile.mk "a.save_2023-01-01_00-00-00.bak" 1 (FileData.raw []),
           BFile.mk "a.save_2023-01-01_00-00-01.bak" 2 (FileData.raw []),
           BFile.mk "a.save_2023-01-01_00-00-02.bak" 3 (FileData.raw [])] "a.save")
    ∧ ((∀ f ∈ pruneSelection 1
          [BFile.mk "a.save_2023-01-01_00-00-00.bak" 1 (FileData.raw []),
           BFile.mk "a.save_2023-01-01_00-00-01.bak" 2 (FileData.raw []),
           BFile.mk "a.save_2023-01-01_00-00-02.bak" 3 (FileData.raw [])] "a.save",
        f ∉ (prune_backups 1
          [BFile.mk "a.save_2023-01-01_00-00-00.bak" 1 (FileData.raw []),
           BFile.mk "a.save_2023-01-01_00-00-01.bak" 2 (FileData.raw []),
           BFile.mk "a.save_2023-01-01_00-00-02.bak" 3 (FileData.raw [])]
          ["a.save_2023-01-01_00-00-00.bak"] "a.save").1)
      ∧ (Event.statusNotification "Prune Info"
          ("Prune skipping: " ++ "a.save_2023-01-01_00-00-00.bak" ++ " was already deleted."))
        ∈ (prune_backups 1
          [BFile.mk "a.save_2023-01-01_00-00-00.bak" 1 (FileData.raw []),
           BFile.mk "a.save_2023-01-01_00-00-01.bak" 2 (FileData.raw []),
           BFile.mk "a.save_2023-01-01_00-00-02.bak" 3 (FileData.raw [])]
          ["a.save_2023-01-01_00-00-00.bak"] "a.save").2
      ∧ ∀ f ∈ pruneSelection 1
          [BFile.mk "a.save_2023-01-01_00-00-00.bak" 1 (FileData.raw []),
           BFile.mk "a.save_2023-01-01_00-00-01.bak" 2 (FileData.raw []),
           BFile.mk "a.save_2023-01-01_00-00-02.bak" 3 (FileData.raw [])] "a.save",
          f.name ≠ "a.save_2023-01-01_00-00-00.bak" →
            (Event.pruned f.name)
              ∈ (prune_backups 1
                [BFile.mk "a.save_2023-01-01_00-00-00.bak" 1 (FileData.raw []),
                 BFile.mk "a.save_2023-01-01_00-00-01.bak" 2 (FileData.raw []),
                 BFile.mk "a.save_2023-01-01_00-00-02.bak" 3 (FileData.raw [])]
                ["a.save_2023-01-01_00-00-00.bak"] "a.save").2) :=
  ⟨by decide,
   C8_prune_skips_missing 1
     [BFile.mk "a.save_2023-01-01_00-00-00.bak" 1 (FileData.raw []),
      BFile.mk "a.save_2023-01-01_00-00-01.bak" 2 (FileData.raw []),
      BFile.mk "a.save_2023-01-01_00-00-02.bak" 3 (FileData.raw [])] "a.save"
     (BFile.mk "a.save_2023-01-01_00-00-00.bak" 1 (FileData.raw [])) (by decide)⟩

/-! ## Lemmas about the backup engine. -/

theorem lookupTable_insert (t : HashTable) (k : String) (v : Digest) :
    lookupTable (insertTable t k v) k = some v := by
  induction t with
  | nil => simp [insertTable, lookupTable]
  | cons kv rest ih =>
      obtain ⟨k', v'⟩ := kv
      by_cases h : k' = k <;> simp [insertTable, lookupTable, h, ih]

theorem createdNames_pruneEventsFor (x : String) (missing : List String)
    (sel : List BFile) : createdNames (pruneEventsFor x missing sel) = [] := by
  unfold pruneEventsFor createdNames
  rw [List.filterMap_eq_nil_iff]
  intro e he
  rw [List.mem_flatMap] at he
  obtain ⟨f, _, he⟩ := he
  by_cases h : missing.contains f.name = true
  · rw [if_pos h] at he
    simp only [List.mem_singleton] at he
    subst he
    rfl
  · rw [if_neg h] at he
    simp only [List.mem_cons, List.mem_singleton, List.not_mem_nil, or_false] at he
    rcases he with rfl | rfl | rfl <;> rfl

/-- A matching file strictly newer than every previously matching file is
never part of the pruner's selection when at least one file is retained. -/
theorem newest_not_selected (N : Nat) (dir : List BFile) (x : String) (nf : BFile)
    (hN : 1 ≤ N)
    (hdec : get_original_from_backup nf.name = some x)
    (hnames : ((dir ++ [nf]).map BFile.name).Nodup)
    (hmax : ∀ f ∈ backupsFor dir x, f.mtime < nf.mtime) :
    nf ∉ pruneSelection N (dir ++ [nf]) x := by
  intro hsel
  by_cases hlt : N < (List.insertionSort mtimeLE (backupsFor (dir ++ [nf]) x)).length
  case neg =>
    unfold pruneSelection at hsel
    rw [if_neg hlt] at hsel
    cases hsel
  case pos =>
    have hseleq : pruneSelection N (dir ++ [nf]) x
        = (List.insertionSort mtimeLE (backupsFor (dir ++ [nf]) x)).take
            ((List.insertionSort mtimeLE (backupsFor (dir ++ [nf]) x)).length - N) := by
      unfold pruneSelection
      rw [if_pos hlt]
    have hperm : List.Perm (List.insertionSort mtimeLE (backupsFor (dir ++ [nf]) x))
        (backupsFor (dir ++ [nf]) x) :=
      List.perm_insertionSort _ _
    have hsorted : List.Sorted mtimeLE (List.insertionSort mtimeLE (backupsFor (dir ++ [nf]) x)) :=
      List.sorted_insertionSort _ _
    have hnodM : (backupsFor (dir ++ [nf]) x).Nodup :=
      List.Nodup.of_map BFile.name (backupsFor_names_nodup x hnames)
    have hnodS : (List.insertionSort mtimeLE (backupsFor (dir ++ [nf]) x)).Nodup :=
      (List.Perm.nodup_iff hperm).2 hnodM
    -- pick an element of the kept (dropped) part, which has length N ≥ 1
    have hdroplen : 0 < ((List.insertionSort mtimeLE (backupsFor (dir ++ [nf]) x)).drop
        ((List.insertionSort mtimeLE (backupsFor (dir ++ [nf]) x)).length - N)).length := by
      rw [List.length_drop]
      omega
    obtain ⟨e, he⟩ := List.exists_mem_of_length_pos hdroplen
    rw [← List.take_append_drop
      ((List.insertionSort mtimeLE (backupsFor (dir ++ [nf]) x)).length - N)
      (List.insertionSort mtimeLE (backupsFor (dir ++ [nf]) x))] at hsorted hnodS
    have hnf_take : nf ∈ (List.insertionSort mtimeLE (backupsFor (dir ++ [nf]) x)).take
        ((List.insertionSort mtimeLE (backupsFor (dir ++ [nf]) x)).length - N) := by
      rw [hseleq] at hsel
      exact hsel
    have hle : nf.mtime ≤ e.mtime :=
      (List.pairwise_append.1 hsorted).2.2 nf hnf_take e he
    have heM : e ∈ backupsFor (dir ++ [nf]) x :=
      hperm.mem_iff.1 (List.mem_of_mem_drop he)
    have hne : e ≠ nf := by
      intro heq
      subst heq
      exact (List.disjoint_of_nodup_append hnodS) hnf_take he
    have heM' : e ∈ backupsFor dir x := by
      unfold backupsFor at heM ⊢
      rw [List.filter_append] at heM
      rcases List.mem_append.1 heM with h | h
      · exact h
      · rw [List.mem_filter] at h
        simp only [List.mem_singleton] at h
        exact absurd h.1 hne
    exact absurd hle (Nat.not_le.2 (hmax e heM'))

theorem prune_backups_fst (N : Nat) (dir : List BFile) (missing : List String) (x : String) :
    (prune_backups N dir missing x).1
      = dir.filter (fun f => !(missing.contains f.name)
          && !(((pruneSelection N dir x).map BFile.name).contains f.name)) := rfl

theorem prune_backups_snd (N : Nat) (dir : List BFile) (missing : List String) (x : String) :
    (prune_backups N dir missing x).2
      = pruneEventsFor x missing (pruneSelection N dir x) := rfl

/-- Unfolding equation for the create path of `check_and_create_backup`
(fault-free, fingerprint available, content changed). -/
theorem check_create_eq (N : Nat) (c : Bool) (st : EngineState) (name ts : String)
    (content : List Nat) (mt : Nat)
    (hne : ¬ lookupTable st.last_backup_hashes name = some content) :
    check_and_create_backup N c st name (some content) ts mt none
      = (⟨insertTable st.last_backup_hashes name content,
          (prune_backups N (st.backupDir
            ++ [⟨encodeBackupName name ts c, mt,
                if c then FileData.zipped name content else FileData.raw content⟩]) [] name).1⟩,
        [Event.status ("Created backup: " ++ encodeBackupName name ts c),
         Event.backupNotification "Backup Created" ("Backup of " ++ name ++ " created."),
         Event.created (encodeBackupName name ts c)]
        ++ (prune_backups N (st.backupDir ++ [⟨encodeBackupName name ts c, mt,
              if c then FileData.zipped name content else FileData.raw content⟩]) [] name).2) := by
  simp only [check_and_create_backup]
  rw [if_neg hne]
  rw [if_neg (show ¬((none : Option FailPoint) = some FailPoint.atEnsureDir
    ∨ (none : Option FailPoint) = some FailPoint.atWrite) by simp)]
  rw [if_neg (show ¬(none : Option FailPoint) = some FailPoint.atEmitCreated by simp)]

/-- C1: when the fingerprinter returns a digest, the fault-free
`check_and_create_backup` either skips — digest equal to the table entry:
directory and table unchanged, a single unchanged-skipping status emitted —
or performs exactly one backup-file creation and stores the digest under the
file's basename.  The side conditions state the situation of a real call:
retention at least 1, a valid save name, a well-formed timestamp, the
encoded backup name not yet present, distinct directory names, and the new
file carrying the newest modification time among its matches. -/
theorem C1_check_and_create_backup (backup_count : Nat) (compress_backups : Bool)
    (st : EngineState) (original_filename timestamp : String)
    (content : List Nat) (newMtime : Nat)
    (hN : 1 ≤ backup_count)
    (hv : validSaveName original_filename = true)
    (hts : timestampOk timestamp.data = true)
    (hfresh : ∀ f ∈ st.backupDir,
        f.name ≠ encodeBackupName original_filename timestamp compress_backups)
    (hnames : (st.backupDir.map BFile.name).Nodup)
    (hmax : ∀ f ∈ backupsFor st.backupDir original_filename, f.mtime < newMtime) :
    (lookupTable st.last_backup_hashes original_filename = some content →
      check_and_create_backup backup_count compress_backups st original_filename
          (some content) timestamp newMtime none
        = (st, [Event.status ("Content of " ++ original_filename ++ " unchanged. Skipping.")]))
    ∧ (¬ lookupTable st.last_backup_hashes original_filename = some content →
      createdNames (check_and_create_backup backup_count compress_backups st original_filename
            (some content) timestamp newMtime none).2
          = [encodeBackupName original_filename timestamp compress_backups]
      ∧ lookupTable (check_and_create_backup backup_count compress_backups st original_filename
            (some content) timestamp newMtime none).1.last_backup_hashes original_filename
          = some content
      ∧ (check_and_create_backup backup_count compress_backups st original_filename
            (some content) timestamp newMtime none).1.backupDir.filter
              (fun f => !((st.backupDir.map BFile.name).contains f.name))
          = [⟨encodeBackupName original_filename timestamp compress_backups, newMtime,
              if compress_backups then FileData.zipped original_filename content
              else FileData.raw content⟩]) := by
  constructor
  · intro heq
    simp only [check_and_create_backup]
    rw [if_pos heq]
  · intro hne
    rw [check_create_eq backup_count compress_backups st original_filename timestamp
      content newMtime hne]
    set nf : BFile := ⟨encodeBackupName original_filename timestamp compress_backups, newMtime,
      if compress_backups then FileData.zipped original_filename content
      else FileData.raw content⟩ with hnf
    have hnfname : nf.name = encodeBackupName original_filename timestamp compress_backups := rfl
    have hnfmt : nf.mtime = newMtime := rfl
    have hnames' : ((st.backupDir ++ [nf]).map BFile.name).Nodup := by
      rw [List.map_append]
      refine List.nodup_append.2 ⟨hnames, List.nodup_singleton _, ?_⟩
      intro a ha hb
      simp only [List.map_cons, List.map_nil, List.mem_singleton] at hb
      rw [List.mem_map] at ha
      obtain ⟨f, hf, hfa⟩ := ha
      exact hfresh f hf (hfa.trans hb)
    have hdec : get_original_from_backup nf.name = some original_filename := by
      rw [hnfname]
      exact decode_encodeBackupName _ _ _ hv hts
    have hnotsel : nf ∉ pruneSelection backup_count (st.backupDir ++ [nf]) original_filename :=
      newest_not_selected backup_count st.backupDir original_filename nf hN hdec hnames'
        (fun f hf => by rw [hnfmt]; exact hmax f hf)
    have hselcon : (((pruneSelection backup_count (st.backupDir ++ [nf])
        original_filename).map BFile.name).contains nf.name) = false := by
      cases hc : (((pruneSelection backup_count (st.backupDir ++ [nf])
          original_filename).map BFile.name).contains nf.name) with
      | false => rfl
      | true =>
          exfalso
          have hmem := List.mem_of_elem_eq_true hc
          rw [List.mem_map] at hmem
          obtain ⟨g, hg, hgname⟩ := hmem
          have hgdir : g ∈ st.backupDir ++ [nf] := (mem_backupsFor (pruneSelection_mem hg)).1
          have hnfdir : nf ∈ st.backupDir ++ [nf] := List.mem_append.2 (Or.inr (by simp))
          have : g = nf := List.inj_on_of_nodup_map hnames' hgdir hnfdir hgname
          rw [this] at hg
          exact hnotsel hg
    refine ⟨?_, lookupTable_insert _ _ _, ?_⟩
    · rw [createdNames, List.filterMap_append, prune_backups_snd]
      rw [show List.filterMap _ (pruneEventsFor original_filename []
          (pruneSelection backup_count (st.backupDir ++ [nf]) original_filename))
        = createdNames (pruneEventsFor original_filename []
            (pruneSelection backup_count (st.backupDir ++ [nf]) original_filename)) from rfl]
      rw [createdNames_pruneEventsFor]
      rfl
    · rw [prune_backups_fst, List.filter_filter, List.filter_append]
      have h1 : st.backupDir.filter (fun f =>
          !((st.backupDir.map BFile.name).contains f.name)
            && (!(([] : List String).contains f.name)
              && !(((pruneSelection backup_count (st.backupDir ++ [nf])
                  original_filename).map BFile.name).contains f.name))) = [] := by
        refine List.filter_eq_nil_iff.2 ?_
        intro a ha
        have hc : (st.backupDir.map BFile.name).contains a.name = true :=
          List.elem_eq_true_of_mem (List.mem_map_of_mem _ ha)
        simp only [hc, Bool.not_true, Bool.false_and]
        exact Bool.false_ne_true
      have hcon2 : (st.backupDir.map BFile.name).contains nf.name = false := by
        cases hc : (st.backupDir.map BFile.name).contains nf.name with
        | false => rfl
        | true =>
            exfalso
            have hmem := List.mem_of_elem_eq_true hc
            rw [List.mem_map] at hmem
            obtain ⟨f, hf, hfn⟩ := hmem
            exact hfresh f hf (by rw [hfn, hnfname])
      have h2 : [nf].filter (fun f =>
          !((st.backupDir.map BFile.name).contains f.name)
            && (!(([] : List String).contains f.name)
              && !(((pruneSelection backup_count (st.backupDir ++ [nf])
                  original_filename).map BFile.name).contains f.name))) = [nf] := by
        refine List.filter_eq_self.2 ?_
        intro a ha
        simp only [List.mem_singleton] at ha
        subst ha
        rw [hcon2, hselcon]
        rfl
      rw [h1, h2, List.nil_append]

theorem C1_check_and_create_backup_witness :
    (1 ≤ 1 ∧ validSaveName "a.save" = true
      ∧ timestampOk ("2023-10-27_10-30-00" : String).data = true
      ∧ (∀ f ∈ (EngineState.mk [] []).backupDir,
          f.name ≠ encodeBackupName "a.save" "2023-10-27_10-30-00" false)
      ∧ ((EngineState.mk [] []).backupDir.map BFile.name).Nodup
      ∧ (∀ f ∈ backupsFor (EngineState.mk [] []).backupDir "a.save", f.mtime < 5))
    ∧ ((lookupTable (EngineState.mk [] []).last_backup_hashes "a.save" = some [1] →
        check_and_create_backup 1 false (EngineState.mk [] []) "a.save" (some [1])
            "2023-10-27_10-30-00" 5 none
          = (EngineState.mk [] [],
             [Event.status ("Content of " ++ "a.save" ++ " unchanged. Skipping.")]))
      ∧ (¬ lookupTable (EngineState.mk [] []).last_backup_hashes "a.save" = some [1] →
        createdNames (check_and_create_backup 1 false (EngineState.mk [] []) "a.save"
              (some [1]) "2023-10-27_10-30-00" 5 none).2
            = [encodeBackupName "a.save" "2023-10-27_10-30-00" false]
        ∧ lookupTable (check_and_create_backup 1 false (EngineState.mk [] []) "a.save"
              (some [1]) "2023-10-27_10-30-00" 5 none).1.last_backup_hashes "a.save"
            = some [1]
        ∧ (check_and_create_backup 1 false (EngineState.mk [] []) "a.save" (some [1])
              "2023-10-27_10-30-00" 5 none).1.backupDir.filter
                (fun f => !(((EngineState.mk [] []).backupDir.map BFile.name).contains f.name))
            = [⟨encodeBackupName "a.save" "2023-10-27_10-30-00" false, 5,
                if false then FileData.zipped "a.save" [1] else FileData.raw [1]⟩])) :=
  ⟨⟨by decide, by decide, by decide, by decide, by decide, by decide⟩,
   C1_check_and_create_backup 1 false (EngineState.mk [] []) "a.save" "2023-10-27_10-30-00"
     [1] 5 (by decide) (by decide) (by decide) (by decide) (by decide) (by decide)⟩

/-- C7: `check_and_create_backup` is modelled as a total function for every
injected exception point — the `except` clause always produces a normal
return — and (i) whenever the failure strikes before the backup file is
written (directory creation, the write itself) or the hash read failed, the
hash table is unchanged, and (ii) any exception on the create path is
converted into the non-fatal backup-error notification in the event trace. -/
theorem C7_check_exceptions_nonfatal (backup_count : Nat) (compress_backups : Bool)
    (st : EngineState) (original_filename timestamp : String)
    (readResult : Option (List Nat)) (newMtime : Nat) (fail : Option FailPoint) :
    ((readResult = none ∨ fail = some FailPoint.atEnsureDir
        ∨ fail = some FailPoint.atWrite) →
      (check_and_create_backup backup_count compress_backups st original_filename
          readResult timestamp newMtime fail).1.last_backup_hashes
        = st.last_backup_hashes)
    ∧ (∀ content, readResult = some content →
        ¬ lookupTable st.last_backup_hashes original_filename = some content →
        ∀ fp, fail = some fp →
          Event.statusNotification "Backup Error"
              ("Error creating backup for " ++ original_filename)
            ∈ (check_and_create_backup backup_count compress_backups st original_filename
                readResult timestamp newMtime fail).2) := by
  constructor
  · intro h
    cases readResult with
    | none => rfl
    | some content =>
        simp only [check_and_create_backup]
        by_cases hl : lookupTable st.last_backup_hashes original_filename = some content
        · rw [if_pos hl]
        · rw [if_neg hl]
          have hfail : fail = some FailPoint.atEnsureDir ∨ fail = some FailPoint.atWrite := by
            rcases h with h | h
            · cases h
            · exact h
          rw [if_pos hfail]
  · intro content hcontent hne fp hfp
    subst hcontent
    simp only [check_and_create_backup]
    rw [if_neg hne]
    cases fp with
    | atEnsureDir =>
        rw [if_pos (Or.inl hfp)]
        simp [errorEvents]
    | atWrite =>
        rw [if_pos (Or.inr hfp)]
        simp [errorEvents]
    | atEmitCreated =>
        subst hfp
        rw [if_neg (show ¬((some FailPoint.atEmitCreated : Option FailPoint)
            = some FailPoint.atEnsureDir
          ∨ (some FailPoint.atEmitCreated : Option FailPoint) = some FailPoint.atWrite)
          by simp)]
        rw [if_pos rfl]
        simp [errorEvents]

theorem C7_check_exceptions_nonfatal_witness :
    ((some ([1] : List Nat) = none
        ∨ (some FailPoint.atWrite : Option FailPoint) = some FailPoint.atEnsureDir
        ∨ (some FailPoint.atWrite : Option FailPoint) = some FailPoint.atWrite)
      ∧ ¬ lookupTable (EngineState.mk [] []).last_backup_hashes "a.save" = some [1])
    ∧ ((check_and_create_backup 1 false (EngineState.mk [] []) "a.save" (some [1])
          "2023-10-27_10-30-00" 5 (some FailPoint.atWrite)).1.last_backup_hashes
        = (EngineState.mk [] []).last_backup_hashes
      ∧ Event.statusNotification "Backup Error" ("Error creating backup for " ++ "a.save")
          ∈ (check_and_create_backup 1 false (EngineState.mk [] []) "a.save" (some [1])
              "2023-10-27_10-30-00" 5 (some FailPoint.atWrite)).2) :=
  ⟨⟨Or.inr (Or.inr rfl), by decide⟩,
   (C7_check_exceptions_nonfatal 1 false (EngineState.mk [] []) "a.save"
       "2023-10-27_10-30-00" (some [1]) 5 (some FailPoint.atWrite)).1
     (Or.inr (Or.inr rfl)),
   (C7_check_exceptions_nonfatal 1 false (EngineState.mk [] []) "a.save"
       "2023-10-27_10-30-00" (some [1]) 5 (some FailPoint.atWrite)).2
     [1] rfl (by decide) FailPoint.atWrite rfl⟩

/-- C4 (refuting evaluation): over a backup directory whose only backup for
`A.save` is a zip archive, reconciliation seeding leaves the hash table
without an entry for `A.save`, although a backup for `A.save` exists — the
seeding loop filters listed files on the case-sensitive `.bak` suffix and
ignores every `.zip` backup, so the claimed invariant is already broken at
the end of seeding. -/
theorem C4_seeding_ignores_zip_backups :
    lookupTable (seedHashes
        [BFile.mk "A.save_2023-01-01_00-00-00.zip" 10 (FileData.zipped "A.save" [1, 2])] [])
        "A.save"
      = none
    ∧ backupsFor
        [BFile.mk "A.save_2023-01-01_00-00-00.zip" 10 (FileData.zipped "A.save" [1, 2])]
        "A.save" ≠ [] := by decide

/-- C5 (refuting evaluation): an existing `.zip` backup decodes to `A.save`,
yet a reconciliation run over that backup directory with `A.save` live still
creates an initial backup for `A.save`, because the grouping step only
considers `.bak` files; the claim promises no initial backup for a file that
already has one (raw or zip).  The final conjunct shows the part the code
does satisfy: with a `.bak` backup for `A.save` and both `A.save` and
`B.save` live, exactly one initial backup is created, for `B.save` only. -/
theorem C5_reconciliation_ignores_zip_backups :
    get_original_from_backup "A.save_2023-01-01_00-00-00.zip" = some "A.save"
    ∧ createdNames (initialize_and_create_initial_backups 5 true
        [BFile.mk "A.save_2023-01-01_00-00-00.zip" 10 (FileData.zipped "A.save" [1, 2])]
        [("A.save", [1, 2])]
        (fun _ => ("2024-01-01_00-00-00", 20)) []).2
      = ["A.save_2024-01-01_00-00-00.zip"]
    ∧ createdNames (initialize_and_create_initial_backups 5 false
        [BFile.mk "A.save_2023-01-01_00-00-00.bak" 10 (FileData.raw [1, 2])]
        [("A.save", [1, 2]), ("B.save", [3])]
        (fun _ => ("2024-01-01_00-00-00", 20)) []).2
      = ["B.save_2024-01-01_00-00-00.bak"] := by decide

/-! ## Lemmas about the restore filesystem model. -/

theorem fsGet_fsRemove_self (fs : FS) (p : FPath) : fsGet (fsRemove fs p) p = none := by
  induction fs with
  | nil => rfl
  | cons e rest ih =>
      by_cases h : e.1 = p
      · simp [fsRemove, h] at ih ⊢
        exact ih
      · simp only [fsRemove, List.filter_cons]
        rw [if_pos (by simp [h])]
        rw [fsGet, if_neg h]
        simpa [fsRemove] using ih

theorem fsGet_fsRemove_ne (fs : FS) (p q : FPath) (h : q ≠ p) :
    fsGet (fsRemove fs p) q = fsGet fs q := by
  induction fs with
  | nil => rfl
  | cons e rest ih =>
      by_cases he : e.1 = p
      · rw [fsRemove, List.filter_cons, if_neg (by simp [he])]
        rw [fsGet, if_neg (by rw [he]; exact fun hc => h hc.symm)]
        simpa [fsRemove] using ih
      · rw [fsRemove, List.filter_cons, if_pos (by simp [he])]
        rw [fsGet, fsGet]
        by_cases heq : e.1 = q
        · rw [if_pos heq, if_pos heq]
        · rw [if_neg heq, if_neg heq]
          simpa [fsRemove] using ih

theorem fsGet_append_none (l1 l2 : FS) (p : FPath) (h : fsGet l1 p = none) :
    fsGet (l1 ++ l2) p = fsGet l2 p := by
  induction l1 with
  | nil => rfl
  | cons e rest ih =>
      rw [fsGet] at h
      by_cases he : e.1 = p
      · rw [if_pos he] at h
        cases h
      · rw [if_neg he] at h
        rw [List.cons_append, fsGet, if_neg he]
        exact ih h

theorem fsGet_fsSet_self (fs : FS) (p : FPath) (d : FileData) :
    fsGet (fsSet fs p d) p = some d := by
  rw [fsSet, fsGet_append_none _ _ _ (fsGet_fsRemove_self fs p)]
  rw [fsGet, if_pos rfl]

theorem fsGet_append_some (l1 l2 : FS) (p : FPath) (d : FileData)
    (h : fsGet l1 p = some d) : fsGet (l1 ++ l2) p = some d := by
  induction l1 with
  | nil => cases h
  | cons e rest ih =>
      rw [fsGet] at h
      rw [List.cons_append, fsGet]
      by_cases he : e.1 = p
      · rw [if_pos he] at h ⊢
        exact h
      · rw [if_neg he] at h ⊢
        exact ih h

theorem fsGet_fsSet_ne (fs : FS) (p q : FPath) (d : FileData) (h : q ≠ p) :
    fsGet (fsSet fs p d) q = fsGet fs q := by
  rw [fsSet]
  have hrem := fsGet_fsRemove_ne fs p q h
  cases hq : fsGet (fsRemove fs p) q with
  | none =>
      rw [fsGet_append_none _ _ _ hq, fsGet, if_neg (fun hc => h hc.symm), fsGet]
      rw [hq] at hrem
      exact hrem
  | some d' =>
      rw [fsGet_append_some _ _ _ _ hq]
      rw [hq] at hrem
      exact hrem

theorem pre_restore_base_ne (b ts : String) : ¬ b ++ ".pre-restore-" ++ ts = b := by
  intro h
  have hlen := congrArg String.length h
  rw [String.length_append, String.length_append] at hlen
  have h13 : (".pre-restore-" : String).length = 13 := rfl
  omega

/-- C9: a live restore over an existing destination first renames the live
file to `<base>.pre-restore-<timestamp>` in the same directory — its content
stays on disk at the safety path, never deleted — and then materialises the
backup's content (the archive payload when compressed, the raw copy
otherwise) at the destination, touching no other path; when no live file
exists at the destination the restore simply creates the file from the
backup.  `hbase` records that a live restore always targets
`saves_folder/original_savename`, as at the call site. -/
theorem C9_restore_live_safety (fs : FS) (backupP destP : FPath)
    (original_savename timestamp : String) (isCompressed : Bool) (payload : List Nat)
    (hsrc : fsGet fs backupP
      = some (if isCompressed then FileData.zipped original_savename payload
              else FileData.raw payload))
    (hbase : destP.base = original_savename)
    (hne1 : ¬ backupP = destP)
    (hne2 : ¬ backupP = FPath.mk destP.dir (destP.base ++ ".pre-restore-" ++ timestamp)) :
    (∀ L, fsGet fs destP = some L →
      ∃ r, restore_backup_file fs backupP destP original_savename isCompressed true timestamp
          = Except.ok r
        ∧ fsGet r.1 (FPath.mk destP.dir (destP.base ++ ".pre-restore-" ++ timestamp)) = some L
        ∧ fsGet r.1 destP = some (FileData.raw payload)
        ∧ ∀ p, ¬ p = destP →
            ¬ p = FPath.mk destP.dir (destP.base ++ ".pre-restore-" ++ timestamp) →
            fsGet r.1 p = fsGet fs p)
    ∧ (fsGet fs destP = none →
      ∃ r, restore_backup_file fs backupP destP original_savename isCompressed true timestamp
          = Except.ok r
        ∧ fsGet r.1 destP = some (FileData.raw payload)
        ∧ ∀ p, ¬ p = destP → fsGet r.1 p = fsGet fs p) := by
  have hdesteta : FPath.mk destP.dir destP.base = destP := rfl
  have hsafene : ¬ FPath.mk destP.dir (destP.base ++ ".pre-restore-" ++ timestamp) = destP := by
    intro h
    exact pre_restore_base_ne destP.base timestamp (congrArg FPath.base h)
  constructor
  · intro L hL
    have hmov : fsMove fs destP (FPath.mk destP.dir (destP.base ++ ".pre-restore-" ++ timestamp))
        = fsSet (fsRemove fs destP)
            (FPath.mk destP.dir (destP.base ++ ".pre-restore-" ++ timestamp)) L := by
      rw [fsMove, hL]
    have hget1 : fsGet (fsMove fs destP
          (FPath.mk destP.dir (destP.base ++ ".pre-restore-" ++ timestamp))) backupP
        = fsGet fs backupP := by
      rw [hmov, fsGet_fsSet_ne _ _ _ _ hne2, fsGet_fsRemove_ne _ _ _ hne1]
    refine ⟨(fsSet (fsMove fs destP
          (FPath.mk destP.dir (destP.base ++ ".pre-restore-" ++ timestamp))) destP
            (FileData.raw payload),
        [Event.statusNotification "Restore Info"
           ("Renamed existing live save to "
             ++ (destP.base ++ ".pre-restore-" ++ timestamp) ++ " as safety backup."),
         Event.statusNotification "Restore Success"
           ("Successfully restored " ++ backupP.base ++ ".")]), ?_, ?_, ?_, ?_⟩
    · cases isCompressed with
      | true =>
          simp at hsrc
          simp [restore_backup_file, hL, hget1, hsrc, ← hbase, hdesteta]
      | false =>
          simp at hsrc
          simp [restore_backup_file, hL, hget1, hsrc, ← hbase, hdesteta]
    · rw [fsGet_fsSet_ne _ _ _ _ hsafene, hmov, fsGet_fsSet_self]
    · rw [fsGet_fsSet_self]
    · intro p hp1 hp2
      rw [fsGet_fsSet_ne _ _ _ _ hp1, hmov, fsGet_fsSet_ne _ _ _ _ hp2,
        fsGet_fsRemove_ne _ _ _ hp1]
  · intro hL
    refine ⟨(fsSet fs destP (FileData.raw payload),
        [Event.statusNotification "Restore Success"
           ("Successfully restored " ++ backupP.base ++ ".")]), ?_, ?_, ?_⟩
    · cases isCompressed with
      | true =>
          simp at hsrc
          simp [restore_backup_file, hL, hsrc, ← hbase, hdesteta]
      | false =>
          simp at hsrc
          simp [restore_backup_file, hL, hsrc, ← hbase, hdesteta]
    · rw [fsGet_fsSet_self]
    · intro p hp1
      rw [fsGet_fsSet_ne _ _ _ _ hp1]

theorem C9_restore_live_safety_witness :
    (fsGet [(FPath.mk "saves" "A.save", FileData.raw [9]),
            (FPath.mk "backups" "A.save_2023-01-01_00-00-00.bak", FileData.raw [1])]
        (FPath.mk "backups" "A.save_2023-01-01_00-00-00.bak")
      = some (if false then FileData.zipped "A.save" [1] else FileData.raw [1])
      ∧ fsGet [(FPath.mk "saves" "A.save", FileData.raw [9]),
               (FPath.mk "backups" "A.save_2023-01-01_00-00-00.bak", FileData.raw [1])]
          (FPath.mk "saves" "A.save") = some (FileData.raw [9]))
    ∧ ∃ r, restore_backup_file
          [(FPath.mk "saves" "A.save", FileData.raw [9]),
           (FPath.mk "backups" "A.save_2023-01-01_00-00-00.bak", FileData.raw [1])]
          (FPath.mk "backups" "A.save_2023-01-01_00-00-00.bak")
          (FPath.mk "saves" "A.save") "A.save" false true "20240101-000000"
        = Except.ok r
      ∧ fsGet r.1 (FPath.mk "saves" ("A.save" ++ ".pre-restore-" ++ "20240101-000000"))
          = some (FileData.raw [9])
      ∧ fsGet r.1 (FPath.mk "saves" "A.save") = some (FileData.raw [1])
      ∧ ∀ p, ¬ p = FPath.mk "saves" "A.save" →
          ¬ p = FPath.mk "saves" ("A.save" ++ ".pre-restore-" ++ "20240101-000000") →
          fsGet r.1 p
            = fsGet [(FPath.mk "saves" "A.save", FileData.raw [9]),
                     (FPath.mk "backups" "A.save_2023-01-01_00-00-00.bak", FileData.raw [1])] p :=
  ⟨⟨by decide, by decide⟩,
   (C9_restore_live_safety
      [(FPath.mk "saves" "A.save", FileData.raw [9]),
       (FPath.mk "backups" "A.save_2023-01-01_00-00-00.bak", FileData.raw [1])]
      (FPath.mk "backups" "A.save_2023-01-01_00-00-00.bak")
      (FPath.mk "saves" "A.save") "A.save" "20240101-000000" false [1]
      (by decide) (by decide) (by decide) (by decide)).1
     (FileData.raw [9]) (by decide)⟩
